import Mathlib

/-!
Verification of the record-linkage and merge engine of the concert-listing
aggregator: the field normalizer (`foobos/processors/normalizer.py`), the
duplicate detector and record merger (`foobos/processors/deduplicator.py`),
and the `Concert` data model (`foobos/models/concert.py`).

The Python code is shallowly embedded: strings are `List Char` / `String`
(ASCII-faithful; every concrete input used below is ASCII), `datetime`
becomes an explicit structure, Python `None`-able fields become `Option`,
and each regular expression of the source is translated into an explicit
character-list function implementing that one pattern's effect.

Python's `list(set(xs))` iterates a hash set in an order that is not fixed
across interpreter processes (string hashing is randomized).  Every
translation point that performs `list(set(...))` therefore takes an explicit
set-iteration-order parameter `o : List String → List String`; a valid
interpreter behavior is any `o` returning the distinct elements of its input
in some order (`SetModel` below).  Where the source immediately sorts the
result, the order parameter provably cancels out.
-/

namespace Sandbag

/-! ## Python string primitives -/

/-- Python whitespace for `str.strip` / `\s` (ASCII part: space, tab, LF, VT, FF, CR). -/
def pySpace (c : Char) : Bool :=
  c.toNat = 32 || c.toNat = 9 || c.toNat = 10 || c.toNat = 11 || c.toNat = 12 || c.toNat = 13

/-- Python `str.lower` (ASCII-faithful). -/
def lowerL (l : List Char) : List Char := l.map Char.toLower

def lowerS (s : String) : String := String.mk (lowerL s.data)

/-- Python `str.strip`: drop leading and trailing whitespace. -/
def stripL (l : List Char) : List Char :=
  ((l.dropWhile pySpace).reverse.dropWhile pySpace).reverse

def stripS (s : String) : String := String.mk (stripL s.data)

/-- Embedding: `pat` begins `l` (exact character match). -/
def leadsWith : List Char → List Char → Bool
  | [], _ => true
  | _ :: _, [] => false
  | p :: ps, c :: cs => p = c && leadsWith ps cs

/-- Python `pat in s` (substring containment). -/
def hasSub (pat : List Char) : List Char → Bool
  | [] => leadsWith pat []
  | c :: cs => leadsWith pat (c :: cs) || hasSub pat cs

def hasSubS (pat s : String) : Bool := hasSub pat.data s.data

/-- Collapse each whitespace run to a single space: `re.sub(r'\s+', ' ', ·)`.
The boolean records whether the previous character was whitespace (i.e. the
run was already replaced). -/
def collapseWsGo : Bool → List Char → List Char
  | _, [] => []
  | inWs, c :: cs =>
    if pySpace c then
      if inWs then collapseWsGo true cs else ' ' :: collapseWsGo true cs
    else c :: collapseWsGo false cs

def collapseWs (l : List Char) : List Char := collapseWsGo false l

def natOfDigits (l : List Char) : Nat :=
  l.foldl (fun a c => 10 * a + (c.toNat - 48)) 0

/-! ## rapidfuzz `fuzz.ratio`

`fuzz.ratio(a, b)` is the normalized InDel similarity on a 0–100 scale:
`100 * (|a| + |b| - dist) / (|a| + |b|)` where `dist = |a| + |b| - 2 * lcs(a, b)`,
i.e. `200 * lcs(a, b) / (|a| + |b|)` (and 100 when both strings are empty).
Threshold comparisons are exact in integer arithmetic (the float value can
round across the integer threshold only when the exact rational equals it). -/

/-- One DP row update for the longest-common-subsequence length. -/
def lcsRowStep (a : Char) : List Char → List Nat → Nat → List Nat
  | [], _, _ => []
  | b :: bs, p0 :: p1 :: ps, cur =>
    let v := if a = b then p0 + 1 else max cur p1
    v :: lcsRowStep a bs (p1 :: ps) v
  | _ :: _, _, _ => []

def lcsLen (as bs : List Char) : Nat :=
  (as.foldl (fun prev a => 0 :: lcsRowStep a bs prev 0)
    (List.replicate (bs.length + 1) 0)).getLastD 0

/-- Embedding: `fuzz.ratio a b ≥ t` for an integer threshold `t ≤ 100`. -/
def ratioGE (t : Nat) (a b : List Char) : Bool :=
  if a.length + b.length = 0 then decide (t ≤ 100)
  else decide (t * (a.length + b.length) ≤ 200 * lcsLen a b)

/-- Embedding: `fuzz.ratio a b > t` for an integer threshold `t < 100`. -/
def ratioGT (t : Nat) (a b : List Char) : Bool :=
  if a.length + b.length = 0 then decide (t < 100)
  else decide (t * (a.length + b.length) < 200 * lcsLen a b)

/-! ## Data model (`foobos/models/concert.py`)

The generated fields `id` and `last_updated` are omitted: none of the
normalizer / deduplicator code paths verified here reads or writes them. -/

/-- Python `datetime`: calendar date, wall-clock time, timezone-awareness flag. -/
structure PyDateTime where
  year : Nat
  month : Nat
  day : Nat
  hour : Nat
  minute : Nat
  tzAware : Bool
deriving DecidableEq, Repr

structure Concert where
  date : PyDateTime
  venue_id : String
  venue_name : String
  venue_location : String
  bands : List String
  age_requirement : String := "a/a"
  price_advance : Option Int := none
  price_door : Option Int := none
  time : String := "8pm"
  flags : List String := []
  source : String := ""
  source_url : Option String := none
  genre_tags : List String := []
deriving DecidableEq, Repr

instance : Inhabited Concert where
  default :=
    { date := ⟨1970, 1, 1, 0, 0, false⟩, venue_id := "", venue_name := ""
      venue_location := "", bands := [] }

/-- Embedding: `Concert.headliner`: `self.bands[0] if self.bands else ""`. -/
def Concert.headliner (c : Concert) : String := c.bands.headD ""

/-- Python truthiness of a string. -/
def strTruthy (s : String) : Bool := s ≠ ""

/-- Python truthiness of an optional int (`None` and `0` are falsy). -/
def optIntTruthy : Option Int → Bool
  | none => false
  | some n => n ≠ 0

/-! ## Field normalizer (`foobos/processors/normalizer.py`) -/

/-- Does `l` consist of one-or-more whitespace characters followed by exactly
`"band"` (case-insensitively)?  This is the `\s+band` tail of the pattern
`(?:\s+band)?$` in `_normalize_band_name`. -/
def wsBandTail (l : List Char) : Bool :=
  match l with
  | [] => false
  | c :: _ => pySpace c && decide (lowerL (l.dropWhile pySpace) = "band".data)

/-- The `(.+?)(?:\s+band)?$` part of the `_normalize_band_name` regex: the lazy
group keeps the shortest non-empty prefix whose remainder is empty or matches
`\s+band` at the end, i.e. the longest suffix of the form `\s+band` is removed. -/
def dropBandTail : List Char → List Char
  | [] => []
  | c :: cs => if wsBandTail cs then [c] else c :: dropBandTail cs

/-- The `^(?:the\s+)?` part of the `_normalize_band_name` regex, applied to an
already-stripped string: an initial case-insensitive `the` followed by at least
one whitespace character is removed together with the whole whitespace run.
(The input is stripped, so after such a prefix a non-space character remains.) -/
def dropTheHead (l : List Char) : List Char :=
  match l with
  | t :: h :: e :: c :: rest =>
    if t.toLower = 't' && h.toLower = 'h' && e.toLower = 'e' && pySpace c then
      (c :: rest).dropWhile pySpace
    else l
  | _ => l

/-- Python `str.isupper` (ASCII-faithful): at least one cased character and no
lowercase cased character. -/
def pyIsUpper (l : List Char) : Bool :=
  l.any Char.isAlpha && l.all fun c => !c.isAlpha || c.isUpper

/-- Python `str.title` (ASCII-faithful): each letter is uppercased when the
previous character is not a letter and lowercased otherwise. -/
def pyTitleGo : Bool → List Char → List Char
  | _, [] => []
  | prevAlpha, c :: cs =>
    let c' := if c.isAlpha then (if prevAlpha then c.toLower else c.toUpper) else c
    c' :: pyTitleGo c.isAlpha cs

def pyTitle (l : List Char) : List Char := pyTitleGo false l

/-- The static correction table of `_normalize_band_name`. -/
def bandCorrections : List (String × String) :=
  [ ("dropkick murphy's", "Dropkick Murphys")
  , ("dropkick murphys", "Dropkick Murphys")
  , ("mighty mighty bosstones", "The Mighty Mighty Bosstones")
  , ("bosstones", "The Mighty Mighty Bosstones")
  , ("dinosaur jr", "Dinosaur Jr.")
  , ("dinosaur jr.", "Dinosaur Jr.") ]

/-- Embedding: `_normalize_band_name`. -/
def normalizeBandName (name : String) : String :=
  if name = "" then ""
  else
    let l := stripL name.data
    let l := dropBandTail (dropTheHead l)
    let l := if leadsWith "the ".data (lowerL l) then
               'T' :: 'h' :: 'e' :: ' ' :: l.drop 4
             else l
    let l := if pyIsUpper l && decide (4 < l.length) then pyTitle l else l
    let s := String.mk l
    let s := match bandCorrections.lookup (lowerS s) with
             | some v => v
             | none => s
    stripS s

/-- Apostrophe normalization of `_normalize_venue_id_with_name` (line 111):
`’`, `‘` and backtick each become a straight `'`. -/
def aposFix (c : Char) : Char :=
  if c.toNat = 8217 || c.toNat = 8216 || c.toNat = 96 then Char.ofNat 39 else c

/-- The `id_map` of `_normalize_venue_id` (the duplicated `"o'brien's_pub"` key
of the Python dict literal collapses to a single entry with the same value). -/
def venueIdMap : List (String × String) :=
  [ ("middle_east", "middleeast")
  , ("middle-east", "middleeast")
  , ("themiddleeast", "middleeast")
  , ("middle_east_-_upstairs", "middleeast_up")
  , ("middle_east_-_downstairs", "middleeast_down")
  , ("middle_east-_downstairs", "middleeast_down")
  , ("middle_east_-_corner/bakery", "middleeast_corner")
  , ("middle_east_-_zuzu", "middleeast_zuzu")
  , ("paradise_rock_club", "paradise")
  , ("paradise_rock", "paradise")
  , ("paradiserock", "paradise")
  , ("paradise_rock_club_presented_b", "paradise")
  , ("sinclair_cambridge", "sinclair")
  , ("thesinclair", "sinclair")
  , ("the_sinclair_music_hall", "sinclair")
  , ("the_sinclair_-_cambridge", "sinclair")
  , ("royale_boston", "royale")
  , ("roadrunner-boston", "roadrunner")
  , ("lizard_lounge", "lizardlounge")
  , ("house_of_blues", "hob_boston")
  , ("houseofblues", "hob_boston")
  , ("citizens_house_of_blues_boston", "hob_boston")
  , ("hob", "hob_boston")
  , ("obriens_pub", "obriens")
  , ("obrien", "obriens")
  , ("o'brien's_pub", "obriens")
  , ("crystal_ballroom_at_somerville", "crystal")
  , ("jungle_tix", "jungle")
  , ("brighton_music_hall", "brighton")
  , ("brightonmusic", "brighton")
  , ("brighton_music_hall_presented_", "brighton")
  , ("orpheum_theatre_presented_by_c", "orpheum")
  , ("great_scott", "greatscott")
  , ("greatscottboston", "greatscott")
  , ("midway_cafe", "midway")
  , ("midwaycafe", "midway")
  , ("deep_cuts", "deepcuts")
  , ("deep-cuts", "deepcuts")
  , ("groton_hill_music_center", "grotonhill")
  , ("groton-hill", "grotonhill")
  , ("groton_hill", "grotonhill")
  , ("symphony_hall", "symphonyhall")
  , ("symphony-hall", "symphonyhall")
  , ("bso", "symphonyhall")
  , ("boston_symphony_orchestra", "symphonyhall")
  , ("boston_symphony_hall", "symphonyhall")
  , ("berklee", "berklee_bpc")
  , ("berklee_performing_arts_center", "berklee_bpc")
  , ("bignightlive", "big_night_live")
  , ("bijou_nightclub", "bijou")
  , ("blue_ocean", "blue_ocean_music_hall")
  , ("cafe_939", "cafe939")
  , ("red_room_at_cafe_939", "cafe939")
  , ("centro_night_club", "centro_nightclub")
  , ("chevalier", "chevalier_theatre")
  , ("citywinery", "city_winery")
  , ("fenway", "fenway_park")
  , ("lynn_memorial_auditorium", "lynn_auditorium")
  , ("memoire_boston", "memoire")
  , ("mgm_music_hall_at_fenway", "mgm_music_hall")
  , ("off_the_rails", "off_the_rails_music_venue")
  , ("palladium-ma", "palladium")
  , ("pavilion", "leader_bank_pavilion")
  , ("providence_performing_arts", "providence_performing_arts_cen")
  , ("the_rockwell", "rockwell")
  , ("scullers", "scullers_jazz_club")
  , ("sonia_live_music_venue", "sonia")
  , ("tdgarden", "td_garden")
  , ("the_grand_(boston)", "the_grand")
  , ("the_hanover_theatre", "hanover_theatre")
  , ("strand_theatre-ri", "the_strand_theatre_-_providenc")
  , ("the_vets", "veterans_memorial_auditorium")
  , ("the_vets_-_veterans_memorial_a", "veterans_memorial_auditorium")
  , ("wallys_pub", "wallys")
  , ("xfinity_center", "xfinity_center_-_ma") ]

/-- Embedding: `_normalize_venue_id`.  The `replace("'", "'")` calls on line 148 replace a
straight apostrophe by itself (both literals are ASCII `'` in the source) and
are the identity. -/
def normalizeVenueId (venue_id : String) : String :=
  if venue_id = "" then "unknown"
  else
    let v := String.mk (stripL (lowerL venue_id.data))
    match venueIdMap.lookup v with
    | some canonical => canonical
    | none => v

/-- Embedding: `_normalize_venue_id_with_name`. -/
def normalizeVenueIdWithName (venue_id venue_name : String) : String :=
  if venue_id = "" then "unknown"
  else
    let vid := String.mk (venue_id.data.map aposFix)
    let idLower := stripL (lowerL vid.data)
    let nameLower := stripL (lowerL venue_name.data)
    if hasSub "brien".data idLower && !hasSub "sally".data idLower then "obriens"
    else if hasSub "sallyobrien".data idLower || hasSub "sally_obrien".data idLower then
      "sallyobriens"
    else if hasSub "middleeast".data idLower || hasSub "middle_east".data idLower
            || hasSub "middle-east".data idLower then
      if hasSub "upstairs".data nameLower then "middleeast_up"
      else if hasSub "downstairs".data nameLower then "middleeast_down"
      else if hasSub "corner".data nameLower || hasSub "bakery".data nameLower then
        "middleeast_corner"
      else if hasSub "zuzu".data nameLower then "middleeast_zuzu"
      else "middleeast"
    else normalizeVenueId vid

/-- The `name_map` of `_normalize_venue_name`. -/
def venueNameMap : List (String × String) :=
  [ ("middle east", "Middle East")
  , ("middle east downstairs", "Middle East Downstairs")
  , ("middle east upstairs", "Middle East Upstairs")
  , ("the middle east upstairs", "Middle East Upstairs")
  , ("the middle east downstairs", "Middle East Downstairs")
  , ("the middle east corner bar", "Middle East Corner")
  , ("middle east - downstairs", "Middle East Downstairs")
  , ("middle east- downstairs", "Middle East Downstairs")
  , ("middle east - upstairs", "Middle East Upstairs")
  , ("middle east - corner/bakery", "Middle East Corner")
  , ("middle east - zuzu", "Middle East ZuZu")
  , ("paradise rock club", "Paradise Rock Club")
  , ("paradise", "Paradise Rock Club")
  , ("paradise rock club presented by citizens", "Paradise Rock Club")
  , ("the sinclair", "The Sinclair")
  , ("sinclair", "The Sinclair")
  , ("the sinclair music hall", "The Sinclair")
  , ("royale", "Royale")
  , ("royale boston", "Royale")
  , ("roadrunner", "Roadrunner")
  , ("roadrunner-boston", "Roadrunner")
  , ("lizard lounge", "Lizard Lounge")
  , ("house of blues", "House of Blues")
  , ("house of blues boston", "House of Blues")
  , ("citizens house of blues boston", "House of Blues")
  , ("brighton music hall", "Brighton Music Hall")
  , ("brighton music hall presented by citizens", "Brighton Music Hall")
  , ("orpheum", "Orpheum Theatre")
  , ("orpheum theatre", "Orpheum Theatre")
  , ("orpheum theatre presented by citizens", "Orpheum Theatre")
  , ("great scott", "Great Scott")
  , ("crystal ballroom", "Crystal Ballroom")
  , ("crystal ballroom at somerville theatre", "Crystal Ballroom")
  , ("jungle", "Jungle")
  , ("jungle  tix", "Jungle")
  , ("midway cafe", "Midway Cafe")
  , ("o'brien's pub", "O'Brien's Pub")
  , ("obriens", "O'Brien's Pub")
  , ("sally o'brien's", "Sally O'Brien's")
  , ("sallyobriens", "Sally O'Brien's")
  , ("sally obriens", "Sally O'Brien's")
  , ("the rockwell", "The Rockwell")
  , ("deep cuts", "Deep Cuts")
  , ("groton hill music center", "Groton Hill Music Center")
  , ("groton hill", "Groton Hill Music Center")
  , ("symphony hall", "Symphony Hall")
  , ("boston symphony orchestra", "Symphony Hall") ]

/-- Embedding: `_normalize_venue_name`. -/
def normalizeVenueName (name : String) : String :=
  if name = "" then "Unknown Venue"
  else
    match venueNameMap.lookup (String.mk (stripL (lowerL name.data))) with
    | some v => v
    | none => name

/-- The `loc_map` of `_normalize_location`. -/
def locMap : List (String × String) :=
  [ ("boston", "Boston"), ("boston, ma", "Boston")
  , ("cambridge", "Cambridge"), ("cambridge, ma", "Cambridge")
  , ("somerville", "Somerville"), ("somerville, ma", "Somerville")
  , ("allston", "Allston"), ("allston, ma", "Allston")
  , ("jamaica plain", "Jamaica Plain"), ("jp", "Jamaica Plain")
  , ("brookline", "Brookline"), ("worcester", "Worcester")
  , ("providence", "Providence"), ("providence, ri", "Providence")
  , ("orlando", "Boston") ]

/-- Embedding: `_normalize_location`. -/
def normalizeLocation (location : String) (venue_id : String) : String :=
  if location = "" then "Boston"
  else
    let loc := stripS location
    if venue_id = "hob_boston" then "Boston"
    else
      match locMap.lookup (lowerS loc) with
      | some v => v
      | none => loc

/-- Embedding: `re.sub(':00', '')`: remove every (leftmost, non-overlapping) `:00`. -/
def remColon00 : List Char → List Char
  | ':' :: '0' :: '0' :: rest => remColon00 rest
  | c :: rest => c :: remColon00 rest
  | [] => []

/-- Embedding: `_normalize_time`. -/
def normalizeTime (time : String) : String :=
  if time = "" then "8pm"
  else
    let t := stripL (lowerL time.data)
    let t := t.filter (fun c => c ≠ ' ')
    let t :=
      if !(hasSub "am".data t || hasSub "pm".data t) then
        match t.takeWhile Char.isDigit with
        | [] => t
        | ds =>
          let hour := natOfDigits ds
          if hour < 12 then (Nat.repr hour).data ++ "pm".data
          else (Nat.repr (hour - 12)).data ++ "pm".data
      else t
    String.mk (remColon00 t)

/-- Embedding: `_normalize_age`. -/
def normalizeAge (age : String) : String :=
  if age = "" then "a/a"
  else
    let a := stripL (lowerL age.data)
    if hasSub "all".data a || decide (a = "aa".data) then "a/a"
    else if hasSub "21".data a then "21+"
    else if hasSub "18".data a then "18+"
    else "a/a"

/-! Python string comparison (`sorted`, `'<'`): lexicographic by code point. -/

def lexLe : List Char → List Char → Bool
  | [], _ => true
  | _ :: _, [] => false
  | c :: cs, d :: ds =>
    if c.toNat < d.toNat then true
    else if c.toNat = d.toNat then lexLe cs ds
    else false

def strLE (a b : String) : Prop := lexLe a.data b.data = true

instance : DecidableRel strLE := fun a b => decEq (lexLe a.data b.data) true

/-- Python `sorted` on strings.  `sorted` is stable, but on the (duplicate-free
or order-irrelevant) inputs below insertion sort by `strLE` coincides with it. -/
def sortStr (l : List String) : List String := List.insertionSort strLE l

/-- First-occurrence deduplication: the canonical model of the contents of a
Python `set` built from a list (one particular valid iteration order). -/
def firstDedupGo (seen : List String) : List String → List String
  | [] => []
  | x :: xs =>
    if seen.contains x then firstDedupGo seen xs
    else x :: firstDedupGo (x :: seen) xs

def firstDedup (l : List String) : List String := firstDedupGo [] l

/-- A valid interpreter behavior for `list(set(xs))`: the distinct elements of
`xs` in some order. -/
def SetModel (o : List String → List String) : Prop :=
  ∀ xs : List String, (o xs).Perm (firstDedup xs)

/-- Embedding: `_normalize_concert`.  Returns `none` for the hard rejection (`acts` empty
after cleaning).  The `try/except` wrapper of `normalize_concerts` is
unreachable for well-typed records: every operation inside
`_normalize_concert` is total on the typed data model, so the
keep-original-on-exception branch is dead code here.
`o` models the set-iteration order of `list(set(concert.flags))`. -/
def normalizeConcert (o : List String → List String) (c : Concert) : Option Concert :=
  let date := if c.date.tzAware then { c.date with tzAware := false } else c.date
  let bands := (c.bands.filter strTruthy).map normalizeBandName
  let bands := bands.filter strTruthy
  if bands = [] then none
  else
    let venue_id := normalizeVenueIdWithName c.venue_id c.venue_name
    let venue_name := normalizeVenueName c.venue_name
    let venue_location := normalizeLocation c.venue_location venue_id
    let time := normalizeTime c.time
    let age := normalizeAge c.age_requirement
    let flags := sortStr (o c.flags)
    some { c with date := date, bands := bands, venue_id := venue_id
                , venue_name := venue_name, venue_location := venue_location
                , time := time, age_requirement := age, flags := flags }

/-- Embedding: `normalize_concerts` (the per-record `try/except` never fires on the typed
model; see `normalizeConcert`). -/
def normalizeConcerts (o : List String → List String) (cs : List Concert) : List Concert :=
  cs.filterMap (normalizeConcert o)

/-! ## Duplicate detector (`foobos/processors/deduplicator.py`) -/

/-- Embedding: `re.sub(r'^the\s+', '', ·)` on an already-lowercased string. -/
def dropTheStart (l : List Char) : List Char :=
  match l with
  | 't' :: 'h' :: 'e' :: c :: rest =>
    if pySpace c then (c :: rest).dropWhile pySpace else l
  | _ => l

/-- Embedding: `re.sub(r',\s*the$', '', ·)` on an already-lowercased string. -/
def dropCommaThe (l : List Char) : List Char :=
  match l.reverse with
  | 'e' :: 'h' :: 't' :: rest =>
    match rest.dropWhile pySpace with
    | ',' :: rest2 => rest2.reverse
    | _ => l
  | _ => l

def cityNames : List String :=
  ["boston", "cambridge", "somerville", "brookline", "allston", "brighton"]

/-- Does `re.sub(r'\s*[-–]\s*(boston|cambridge|somerville|brookline|allston|brighton).*$', ...)`
match at the start of `l`?  The whitespace groups are runs, so a match starting
here means: whitespace up to a `-` or `–`, then whitespace, then a city name. -/
def dashCityAt (l : List Char) : Bool :=
  match l.dropWhile pySpace with
  | d :: rest =>
    (d = '-' || d = '–') &&
      cityNames.any fun w => leadsWith w.data (lowerL (rest.dropWhile pySpace))
  | [] => false

/-- Truncate at the leftmost match of the city-suffix pattern (the `.*$` in the
pattern consumes to the end, so substitution by `''` is truncation). -/
def cutCityTail : List Char → List Char
  | [] => []
  | c :: cs => if dashCityAt (c :: cs) then [] else c :: cutCityTail cs

/-- Embedding: `_normalize_name` of the deduplicator. -/
def pyNormalizeName (s : String) : String :=
  let l := stripL (lowerL s.data)
  let l := dropTheStart l
  let l := dropCommaThe l
  let l := cutCityTail l
  let l := l.filter fun c => c.isAlphanum || c = '_' || pySpace c
  let l := collapseWs l
  String.mk (stripL l)

/-- Embedding: `parse_time` inside `_times_similar`: minutes since midnight, `-1` when the
string does not start with a digit (after lowercasing and stripping).
The regex `(\d+)(?::(\d+))?\s*(am|pm)?` never fails once a leading digit
exists; a `:` not followed by a digit leaves the optional minute group unset. -/
def parseTimeMin (s : String) : Int :=
  let t := stripL (lowerL s.data)
  match t.takeWhile Char.isDigit with
  | [] => -1
  | ds =>
    let rest := t.dropWhile Char.isDigit
    let hour := natOfDigits ds
    let pair : Nat × List Char :=
      match rest with
      | ':' :: r =>
        match r.takeWhile Char.isDigit with
        | [] => (0, rest)
        | ms => (natOfDigits ms, r.dropWhile Char.isDigit)
      | _ => (0, rest)
    let rest3 := pair.2.dropWhile pySpace
    let hour :=
      if leadsWith "pm".data rest3 && hour ≠ 12 then hour + 12
      else if leadsWith "am".data rest3 && hour = 12 then 0
      else hour
    Int.ofNat (hour * 60 + pair.1)

/-- Embedding: `_times_similar`. -/
def timesSimilar (a b : String) : Bool :=
  let ma := parseTimeMin a
  let mb := parseTimeMin b
  if ma < 0 || mb < 0 then lowerS a = lowerS b
  else decide ((ma - mb).natAbs ≤ 30)

/-- Venue similarity check of `_are_duplicates` (lines 113–124). -/
def venueSimilar (a b : Concert) : Bool :=
  let va := pyNormalizeName (if strTruthy a.venue_name then a.venue_name else a.venue_id)
  let vb := pyNormalizeName (if strTruthy b.venue_name then b.venue_name else b.venue_id)
  ratioGE 80 va.data vb.data ||
    (strTruthy a.venue_id && strTruthy b.venue_id && lowerS a.venue_id = lowerS b.venue_id)

/-- Headliner similarity check of `_are_duplicates` (lines 127–132). -/
def headlinerSimilar (a b : Concert) : Bool :=
  !a.bands.isEmpty && !b.bands.isEmpty &&
    ratioGE 80 (pyNormalizeName a.headliner).data (pyNormalizeName b.headliner).data

/-- Fuzzy overlap of the non-headliner acts (lines 167–181).  The source builds
Python sets of the normalized names and scans both; set contents equal the
distinct list elements and existence of an overlapping pair is insensitive to
duplication and order, so the scan over the lists is equivalent. -/
def supportOverlap (a b : Concert) : Bool :=
  ((a.bands.drop 1).map pyNormalizeName).any fun x =>
    ((b.bands.drop 1).map pyNormalizeName).any fun y => ratioGE 80 x.data y.data

/-- The `(match_count, total_checks)` counters of the majority-vote fallback
(lines 141–181), updated in source order.  Note the price checks count when
EITHER record has a non-`None` price. -/
def majorityCounts (a b : Concert) : Nat × Nat :=
  let p : Nat × Nat := (0, 0)
  let p := if strTruthy a.time && strTruthy b.time then
             ((if timesSimilar a.time b.time then p.1 + 1 else p.1), p.2 + 1) else p
  let p := if a.price_advance.isSome || b.price_advance.isSome then
             ((if decide (a.price_advance = b.price_advance) then p.1 + 1 else p.1), p.2 + 1) else p
  let p := if a.price_door.isSome || b.price_door.isSome then
             ((if decide (a.price_door = b.price_door) then p.1 + 1 else p.1), p.2 + 1) else p
  let p := if strTruthy a.age_requirement && strTruthy b.age_requirement then
             ((if decide (a.age_requirement = b.age_requirement) then p.1 + 1 else p.1), p.2 + 1) else p
  let p := if decide (1 < a.bands.length) && decide (1 < b.bands.length) then
             ((if supportOverlap a b then p.1 + 1 else p.1), p.2 + 1) else p
  p

/-- Embedding: `_are_duplicates`. -/
def areDuplicates (a b : Concert) : Bool :=
  if !venueSimilar a b then false
  else if headlinerSimilar a b then true
  else
    let p := majorityCounts a b
    decide (3 ≤ p.2) && decide (p.2 / 2 + 1 ≤ p.1)

/-- The cluster-collection loop of `_deduplicate_day` (lines 60–78): the seed
is the earliest not-yet-merged record; every later not-yet-merged record the
seed accepts joins its cluster.  A cluster is `(seed, later duplicates)`.
The fuel argument (initialized to the list length, which always suffices) makes
the recursion structural. -/
def dayGroupsGo : Nat → List Concert → List (Concert × List Concert)
  | 0, _ => []
  | _ + 1, [] => []
  | fuel + 1, a :: rest =>
    (a, rest.filter (areDuplicates a)) ::
      dayGroupsGo fuel (rest.filter fun b => !areDuplicates a b)

def dayGroups (l : List Concert) : List (Concert × List Concert) :=
  dayGroupsGo l.length l

def clusterMembers (g : Concert × List Concert) : List Concert := g.1 :: g.2

/-! ## Record merger (`_merge_concerts`) -/

def sourcePriorityMap : List (String × Nat) :=
  [ ("ticketmaster", 1), ("scrape:safe_in_a_crowd", 2)
  , ("scrape:middle_east", 3), ("scrape:do617", 4) ]

def sourcePriority (s : String) : Nat := (sourcePriorityMap.lookup s).getD 99

/-- Python truthiness of an optional string. -/
def optStrTruthy : Option String → Bool
  | none => false
  | some s => s ≠ ""

/-- Embedding: `_info_richness_score`. -/
def infoRichness (c : Concert) : Nat :=
  (match c.bands with
   | [] => 0
   | h :: _ =>
     h.length / 10 +
       (if hasSubS ":" h || hasSubS "-" h || hasSubS "tour" (lowerS h) then 5 else 0))
  + 2 * c.bands.length
  + (if c.price_advance.isSome then 3 else 0)
  + (if c.price_door.isSome then 3 else 0)
  + 4 * c.flags.length
  + (if strTruthy c.age_requirement && c.age_requirement ≠ "a/a" then 2 else 0)
  + (if strTruthy c.time && c.time ≠ "8pm" then 2 else 0)
  + c.genre_tags.length
  + (if optStrTruthy c.source_url then 2 else 0)

/-- Embedding: `concerts.sort(key=lambda c: (-richness, priority))` sorts the list of
object references; we sort the member INDICES instead, which keeps object
identity visible for the in-place mutation below.  Python's sort is stable, so
its result is exactly the list ordered by the linear order
(key, original position) — which is `idxLE`. -/
def idxLE (cl : List Concert) (i j : Nat) : Prop :=
  infoRichness (cl.getD j default) < infoRichness (cl.getD i default) ∨
    (infoRichness (cl.getD i default) = infoRichness (cl.getD j default) ∧
      (sourcePriority (cl.getD i default).source <
          sourcePriority (cl.getD j default).source ∨
        (sourcePriority (cl.getD i default).source =
            sourcePriority (cl.getD j default).source ∧ i ≤ j)))

instance (cl : List Concert) : DecidableRel (idxLE cl) := by
  intro i j; unfold idxLE; exact inferInstance

def sortIdx (cl : List Concert) : List Nat :=
  List.insertionSort (idxLE cl) (List.range cl.length)

/-- Inner band-matching of the merge loop (lines 300–312): first fuzzy match
(> 90 on lowercased names) wins; a sufficiently longer name replaces it. -/
def upgradeBand (bands : List String) (band : String) : List String :=
  match bands.findIdx? (fun existing => ratioGT 90 (lowerS band).data (lowerS existing).data) with
  | some i => if (bands.getD i "").length + 5 < band.length then bands.set i band else bands
  | none => bands ++ [band]

/-- Band merging of one loop iteration (lines 296–313); falsy (empty) incoming
band names are skipped. -/
def mergeBands (bands incoming : List String) : List String :=
  incoming.foldl (fun acc band => if band = "" then acc else upgradeBand acc band) bands

/-- One iteration of the merge loop (lines 294–333): fold the non-base member
`c` into `best`.  All writes in the source are to fields of `best`, and no
step reads a field another step has written, so the sequential conditional
assignments are presented as one simultaneous record update. -/
def mergeStep (o : List String → List String) (best c : Concert) : Concert :=
  { best with
    bands := mergeBands best.bands c.bands
    price_advance :=
      if !optIntTruthy best.price_advance && optIntTruthy c.price_advance then
        c.price_advance else best.price_advance
    price_door :=
      if !optIntTruthy best.price_door && optIntTruthy c.price_door then
        c.price_door else best.price_door
    flags := o (best.flags ++ c.flags)
    genre_tags := o (best.genre_tags ++ c.genre_tags)
    time := if best.time = "8pm" && c.time ≠ "8pm" then c.time else best.time
    age_requirement :=
      if best.age_requirement = "a/a" && c.age_requirement ≠ "a/a" then
        c.age_requirement else best.age_requirement }

def plusJoin (l : List String) : String := String.intercalate "+" l

/-- Embedding: `_merge_concerts` for a cluster of at least two members, as a transformation
of the heap of member objects (`cl` indexed by original position).  Each loop
iteration reads the current values of `best` (index `b`) and of the visited
member and writes `best`; the final composite-source assignment (lines
335–338) also writes only `best`.  Returns (post-state of all members, the
returned `best`). -/
def mergeHeap (o : List String → List String) (cl : List Concert) :
    List Concert × Concert :=
  let ord := sortIdx cl
  let b := ord.headD 0
  let h1 := (ord.drop 1).foldl
    (fun h j => h.set b (mergeStep o (h.getD b default) (h.getD j default))) cl
  let sources := o (ord.map fun j => (h1.getD j default).source)
  let h2 := if 1 < sources.length then
              h1.set b { h1.getD b default with
                          source := "merged:" ++ plusJoin (sortStr sources) }
            else h1
  (h2, h2.getD b default)

/-- Embedding: `_merge_concerts`.  An empty cluster raises `IndexError` in the source
(`concerts[0]`), modelled as `none`; a singleton is returned unchanged. -/
def mergeConcertsO (o : List String → List String) : List Concert → Option Concert
  | [] => none
  | [c] => some c
  | c0 :: c1 :: rest => some (mergeHeap o (c0 :: c1 :: rest)).2

/-- Merge one detected cluster (always non-empty, so the `getD` default is
never used). -/
def mergeCluster (o : List String → List String) (g : Concert × List Concert) : Concert :=
  (mergeConcertsO o (g.1 :: g.2)).getD g.1

/-- Embedding: `_deduplicate_day`: collect clusters, merge each.  (For lists of length
≤ 1 the source returns the list unchanged, which coincides with merging the
trivial clustering.) -/
def dedupDay (o : List String → List String) (day : List Concert) : List Concert :=
  (dayGroups day).map (mergeCluster o)

/-! ## Pipeline driver (`deduplicate_concerts`) -/

def pad2 (n : Nat) : List Char :=
  [Nat.digitChar (n / 10 % 10), Nat.digitChar (n % 10)]

def pad4 (n : Nat) : List Char :=
  [Nat.digitChar (n / 1000 % 10), Nat.digitChar (n / 100 % 10),
   Nat.digitChar (n / 10 % 10), Nat.digitChar (n % 10)]

/-- Embedding: `concert.date.strftime("%Y-%m-%d")`: zero-padded year, month, day
(`datetime` guarantees `1 ≤ year ≤ 9999`, and glibc zero-pads `%Y` to 4). -/
def dateKey (c : Concert) : String :=
  String.mk (pad4 c.date.year ++ '-' :: (pad2 c.date.month ++ '-' :: pad2 c.date.day))

/-- Append `c` to the group with key `k`, or start a new group at the end: the
insertion-ordered Python dict of lists (lines 33–38). -/
def addToGroup (k : String) (c : Concert) :
    List (String × List Concert) → List (String × List Concert)
  | [] => [(k, [c])]
  | (k', cs) :: rest =>
    if k' = k then (k', cs ++ [c]) :: rest else (k', cs) :: addToGroup k c rest

def groupByDate (l : List Concert) : List (String × List Concert) :=
  l.foldl (fun gs c => addToGroup (dateKey c) c gs) []

/-- Embedding: `deduplicate_concerts` (the `if not concerts: return []` early exit
coincides with the general path on `[]`). -/
def deduplicateConcerts (o : List String → List String) (l : List Concert) : List Concert :=
  (groupByDate l).flatMap fun g => dedupDay o g.2

/-- All clusters the deduplicator forms on an input list. -/
def allClusters (l : List Concert) : List (Concert × List Concert) :=
  (groupByDate l).flatMap fun g => dayGroups g.2

/-- The composed pipeline of `main.py`: normalize, then deduplicate. -/
def pipeline (o : List String → List String) (l : List Concert) : List Concert :=
  deduplicateConcerts o (normalizeConcerts o l)

/-! ## Auxiliary definitions for the verification -/

/-- The value-level result of the merge loop: fold the non-base members, in
sorted order, into the base. -/
def mergeFoldVal (o : List String → List String) (cl : List Concert) : Concert :=
  let ord := sortIdx cl
  ((ord.drop 1).map fun j => cl.getD j default).foldl (mergeStep o)
    (cl.getD (ord.headD 0) default)

/-- Bounds `datetime` guarantees (in fact `1 ≤ year ≤ 9999`, `1 ≤ month ≤ 12`,
`1 ≤ day ≤ 31`; only these weaker bounds are needed). -/
def DateValid (d : PyDateTime) : Prop :=
  d.year ≤ 9999 ∧ d.month ≤ 99 ∧ d.day ≤ 99

instance (d : PyDateTime) : Decidable (DateValid d) := by
  unfold DateValid
  exact inferInstance

/-- Record equality up to the ordering of the two set-derived list fields
(`flags` and `genre_tags`). -/
def EqUpToSetOrder (a b : Concert) : Prop :=
  a.date = b.date ∧ a.venue_id = b.venue_id ∧ a.venue_name = b.venue_name ∧
  a.venue_location = b.venue_location ∧ a.bands = b.bands ∧
  a.age_requirement = b.age_requirement ∧ a.price_advance = b.price_advance ∧
  a.price_door = b.price_door ∧ a.time = b.time ∧ a.flags.Perm b.flags ∧
  a.source = b.source ∧ a.source_url = b.source_url ∧
  a.genre_tags.Perm b.genre_tags

/-- Modelled from the spec: the majority-vote attribute list as the claim
states it — "an attribute … contributes one check exactly when BOTH records
specify it".  Each entry is `none` when the attribute is not counted and
`some m` when it is counted with agreement `m`.  (The source instead counts a
price attribute whenever either record specifies it; see `majorityCounts`.) -/
def claimedAttrChecks (a b : Concert) : List (Option Bool) :=
  [ if strTruthy a.time && strTruthy b.time then some (timesSimilar a.time b.time) else none
  , if a.price_advance.isSome && b.price_advance.isSome then
      some (decide (a.price_advance = b.price_advance)) else none
  , if a.price_door.isSome && b.price_door.isSome then
      some (decide (a.price_door = b.price_door)) else none
  , if strTruthy a.age_requirement && strTruthy b.age_requirement then
      some (decide (a.age_requirement = b.age_requirement)) else none
  , if decide (1 < a.bands.length) && decide (1 < b.bands.length) then
      some (supportOverlap a b) else none ]

def claimedChecks (a b : Concert) : Nat :=
  ((claimedAttrChecks a b).filter Option.isSome).length

/-- The attribute list as the source counts it: time, age and support-act
overlap need both records; each price needs only one (a one-sided price is a
counted, non-matching check). -/
def codeAttrChecks (a b : Concert) : List (Option Bool) :=
  [ if strTruthy a.time && strTruthy b.time then some (timesSimilar a.time b.time) else none
  , if a.price_advance.isSome || b.price_advance.isSome then
      some (decide (a.price_advance = b.price_advance)) else none
  , if a.price_door.isSome || b.price_door.isSome then
      some (decide (a.price_door = b.price_door)) else none
  , if strTruthy a.age_requirement && strTruthy b.age_requirement then
      some (decide (a.age_requirement = b.age_requirement)) else none
  , if decide (1 < a.bands.length) && decide (1 < b.bands.length) then
      some (supportOverlap a b) else none ]

def codeChecks (a b : Concert) : Nat :=
  ((codeAttrChecks a b).filter Option.isSome).length

def codeMatches (a b : Concert) : Nat :=
  ((codeAttrChecks a b).filter (· = some true)).length

/-- The ids `_normalize_venue_id_with_name` can return besides the fallback
slug: the hard-coded special cases plus every value of `venueIdMap`. -/
def venueCanonicalIds : List String :=
  ["unknown", "obriens", "sallyobriens", "middleeast_up", "middleeast_down",
   "middleeast_corner", "middleeast_zuzu", "middleeast"] ++ venueIdMap.map Prod.snd

/-- The deterministic fallback slug of the resolver: apostrophe-normalized,
lowercased, stripped raw id. -/
def venueSlug (vid : String) : String :=
  String.mk (stripL (lowerL (vid.data.map aposFix)))

/-- A second valid set-iteration order (the distinct elements, reversed). -/
def revDedup (l : List String) : List String := (firstDedup l).reverse

/-! Concrete records used by counterexamples and witnesses. -/

def stdDate : PyDateTime := ⟨2026, 3, 14, 0, 0, false⟩

/-- Embedding: `A`: headliner "alpha", 8pm show at the Royale. -/
def cexA : Concert :=
  { date := stdDate, venue_id := "royale", venue_name := "Royale",
    venue_location := "Boston", bands := ["alpha"], time := "8pm", source := "s1" }

/-- Embedding: `B`: headliner "alphax" (fuzzy-similar to both "alpha" and "alphaxxxx"). -/
def cexB : Concert :=
  { date := stdDate, venue_id := "royale", venue_name := "Royale",
    venue_location := "Boston", bands := ["alphax"], time := "8pm", source := "s2" }

/-- Embedding: `C`: headliner "alphaxxxx" (similar to "alphax" but not to "alpha"),
9pm, so the majority fallback cannot link it to `A` either. -/
def cexC : Concert :=
  { date := stdDate, venue_id := "royale", venue_name := "Royale",
    venue_location := "Boston", bands := ["alphaxxxx"], time := "9pm", source := "s3" }

/-- Majority-fallback pair, left side: one-sided advance price. -/
def cexP : Concert :=
  { date := stdDate, venue_id := "royale", venue_name := "Royale",
    venue_location := "Boston", bands := ["xyzzy"], time := "8pm",
    price_advance := some 10, age_requirement := "18+" }

/-- Majority-fallback pair, right side: no advance price. -/
def cexQ : Concert :=
  { date := stdDate, venue_id := "royale", venue_name := "Royale",
    venue_location := "Boston", bands := ["qwert"], time := "8pm",
    price_advance := none, age_requirement := "18+" }

/-- Duplicate pair with distinct flags, for the set-order dependence of the
pipeline. -/
def cexM1 : Concert :=
  { date := stdDate, venue_id := "royale", venue_name := "Royale",
    venue_location := "Boston", bands := ["alpha"], flags := ["a"], source := "s1" }

def cexM2 : Concert :=
  { date := stdDate, venue_id := "royale", venue_name := "Royale",
    venue_location := "Boston", bands := ["alphax"], flags := ["b"], source := "s2" }

/-- Record used by positive witnesses of the normalizer theorems. -/
def wRec : Concert :=
  { date := stdDate, venue_id := "royale", venue_name := "Royale",
    venue_location := "Boston", bands := ["alpha"] }

/-! # Theorems -/

/-- C2.  Every record in the output of `normalize_concerts` has a non-empty
acts list: a record whose acts list empties out is rejected (`none`) and
`filterMap` drops it. -/
theorem normalize_keeps_acts_nonempty (o : List String → List String)
    (cs : List Concert) (c : Concert) (hc : c ∈ normalizeConcerts o cs) :
    c.bands ≠ [] := by
  rw [normalizeConcerts, List.mem_filterMap] at hc
  obtain ⟨a, -, ha⟩ := hc
  simp only [normalizeConcert] at ha
  split at ha
  · cases ha
  · next hb =>
    cases ha
    simpa using hb

theorem normalize_keeps_acts_nonempty_witness :
    ((normalizeConcerts firstDedup [wRec]).headD default).bands ≠ [] :=
  normalize_keeps_acts_nonempty firstDedup [wRec] _ (by decide)

/-- C6 (code bug).  `_normalize_band_name` does NOT preserve a leading
`"The "`: the regex `^(?:the\s+)?(.+?)(?:\s+band)?$` removes it before the
"Keep 'The' at the start" fix-up can see it, so the already-trimmed input
`"The Beatles"` comes back as `"Beatles"`. -/
theorem bandname_leading_the_stripped :
    stripS "The Beatles" = "The Beatles" ∧
    leadsWith "The ".data "The Beatles".data = true ∧
    normalizeBandName "The Beatles" = "Beatles" := by decide

/-- C8.  Merging is idempotent: re-merging the singleton cluster holding a
merge result returns it unchanged, and merging any singleton cluster returns
its sole member unchanged. -/
theorem merge_idempotent (o : List String → List String) (c : Concert)
    (rest : List Concert) :
    (mergeConcertsO o (c :: rest)).bind (fun m => mergeConcertsO o [m]) =
      mergeConcertsO o (c :: rest) ∧
    mergeConcertsO o [c] = some c := by
  cases rest <;> exact ⟨rfl, rfl⟩

/-- C1 (counterexample).  With `A ~ B`, `B ~ C`, `A ≁ C` and input order
`[A, B, C]`, the day-level grouping leaves `C` in its own cluster: pairwise
duplicate decisions are NOT closed transitively. -/
theorem dedup_day_not_transitive :
    areDuplicates cexA cexB = true ∧ areDuplicates cexB cexC = true ∧
    areDuplicates cexA cexC = false ∧
    dayGroups [cexA, cexB, cexC] = [(cexA, [cexB]), (cexC, [])] := by decide

/-- C1 (amended).  The grouping closes links only through the cluster seed:
when the commonly-linked record `B` is compared first, all three records do
end up in one cluster. -/
theorem dedup_day_groups_via_seed (A B C : Concert)
    (hBA : areDuplicates B A = true) (hBC : areDuplicates B C = true) :
    dayGroups [B, A, C] = [(B, [A, C])] := by
  have h1 : List.filter (fun b => areDuplicates B b) [A, C] = [A, C] := by
    simp [List.filter_cons, hBA, hBC]
  have h2 : List.filter (fun b => !areDuplicates B b) [A, C] = [] := by
    simp [List.filter_cons, hBA, hBC]
  show dayGroupsGo 3 [B, A, C] = [(B, [A, C])]
  rw [dayGroupsGo, h1, h2]
  rfl

theorem dedup_day_groups_via_seed_witness :
    areDuplicates cexB cexA = true ∧ areDuplicates cexB cexC = true ∧
    dayGroups [cexB, cexA, cexC] = [(cexB, [cexA, cexC])] :=
  ⟨by decide, by decide, dedup_day_groups_via_seed cexA cexB cexC (by decide) (by decide)⟩

/-- C3 (counterexample).  A non-empty, all-whitespace raw venue id resolves to
the empty string: it matches no special case and no `id_map` key, and the
fallback lowercase-strip slug of whitespace is empty. -/
theorem venueid_empty_on_whitespace :
    ("   " : String) ≠ "" ∧ normalizeVenueIdWithName "   " "Royale" = "" := by decide

/-! Helper lemmas for the venue-resolver totality theorem. -/

theorem lookup_mem_snd {α β : Type} [BEq α] (m : List (α × β)) (k : α) (v : β)
    (h : m.lookup k = some v) : v ∈ m.map Prod.snd := by
  induction m with
  | nil => simp [List.lookup] at h
  | cons p es ih =>
    rw [List.lookup] at h
    by_cases hk : k == p.1
    · rw [hk] at h
      cases h
      exact List.mem_map_of_mem Prod.snd (List.mem_cons_self _ _)
    · rw [Bool.of_not_eq_true hk] at h
      exact List.mem_cons_of_mem _ (ih h)

theorem toNat_ofNat_small (n : Nat) (h : n < 55296) : (Char.ofNat n).toNat = n := by
  rw [Char.ofNat, dif_pos (Or.inl h)]
  simp [Char.ofNatAux, Char.toNat, UInt32.toNat]

theorem pySpace_toLower (c : Char) : pySpace c.toLower = pySpace c := by
  by_cases h : 65 ≤ c.toNat ∧ c.toNat ≤ 90
  · have hl : c.toLower = Char.ofNat (c.toNat + 32) := by
      simp only [Char.toLower]
      exact if_pos ⟨h.1, h.2⟩
    have h32 : (Char.ofNat (c.toNat + 32)).toNat = c.toNat + 32 :=
      toNat_ofNat_small _ (by omega)
    have hL : pySpace (Char.ofNat (c.toNat + 32)) = false := by
      simp only [pySpace, h32, Bool.or_eq_false_iff, decide_eq_false_iff_not]
      omega
    have hR : pySpace c = false := by
      simp only [pySpace, Bool.or_eq_false_iff, decide_eq_false_iff_not]
      omega
    rw [hl, hL, hR]
  · have hl : c.toLower = c := by
      simp only [Char.toLower]
      exact if_neg fun hc => h ⟨hc.1, hc.2⟩
    rw [hl]

theorem mem_dropWhile_of_neg {α : Type} (p : α → Bool) (l : List α) (c : α)
    (hm : c ∈ l) (hp : p c = false) : c ∈ l.dropWhile p := by
  induction l with
  | nil => cases hm
  | cons a as ih =>
    rw [List.dropWhile_cons]
    split
    · next ha =>
      rcases List.mem_cons.mp hm with rfl | hm'
      · rw [hp] at ha; cases ha
      · exact ih hm'
    · exact hm

theorem stripL_ne_nil (l : List Char) (c : Char) (hm : c ∈ l)
    (hp : pySpace c = false) : stripL l ≠ [] := by
  have h1 : c ∈ l.dropWhile pySpace := mem_dropWhile_of_neg _ _ _ hm hp
  have h2 : c ∈ (l.dropWhile pySpace).reverse := List.mem_reverse.mpr h1
  have h3 : c ∈ (l.dropWhile pySpace).reverse.dropWhile pySpace :=
    mem_dropWhile_of_neg _ _ _ h2 hp
  have h4 : c ∈ stripL l := List.mem_reverse.mpr h3
  exact List.ne_nil_of_mem h4

/-- The whitespace-or-identity of apostrophe normalization. -/
theorem pySpace_aposFix (c : Char) (h : pySpace c = false) :
    pySpace (aposFix c) = false := by
  rw [aposFix]
  split
  · decide
  · exact h

/-- C3 (amended).  For every raw venue id containing a non-whitespace
character, the resolver returns a non-empty string, and the result is either
one of the canonical ids it knows (special cases and `id_map` values) or the
deterministic lowercase-strip slug of the raw id.  (A non-empty but
all-whitespace id is the one family of inputs that yields `""`; see
`venueid_empty_on_whitespace`.  Totality — "never raises" — holds by
construction: the resolver is a total function.) -/
theorem venueid_total_on_nonspace (vid name : String)
    (h : ∃ ch ∈ vid.data, pySpace ch = false) :
    normalizeVenueIdWithName vid name ≠ "" ∧
    (normalizeVenueIdWithName vid name ∈ venueCanonicalIds ∨
     normalizeVenueIdWithName vid name = venueSlug vid) := by
  obtain ⟨ch, hmem, hns⟩ := h
  have hvne : vid ≠ "" := by
    intro he
    rw [he] at hmem
    cases hmem
  rw [normalizeVenueIdWithName, if_neg hvne]
  simp only []
  split
  · exact ⟨by decide, Or.inl (by decide)⟩
  · split
    · exact ⟨by decide, Or.inl (by decide)⟩
    · split
      · split
        · exact ⟨by decide, Or.inl (by decide)⟩
        · split
          · exact ⟨by decide, Or.inl (by decide)⟩
          · split
            · exact ⟨by decide, Or.inl (by decide)⟩
            · split
              · exact ⟨by decide, Or.inl (by decide)⟩
              · exact ⟨by decide, Or.inl (by decide)⟩
      · -- fallback: `_normalize_venue_id` on the apostrophe-normalized id
        have hch : Char.toLower (aposFix ch) ∈ stripL (lowerL ((vid.data.map aposFix))) → True := fun _ => trivial
        have hslug_ne : stripL (lowerL (vid.data.map aposFix)) ≠ [] := by
          apply stripL_ne_nil _ (Char.toLower (aposFix ch))
          · exact List.mem_map_of_mem Char.toLower (List.mem_map_of_mem aposFix hmem)
          · rw [pySpace_toLower]
            exact pySpace_aposFix ch hns
        have hv'ne : String.mk (vid.data.map aposFix) ≠ "" := by
          intro he
          have hd : vid.data.map aposFix = ([] : List Char) := congrArg String.data he
          rw [hd] at hslug_ne
          exact hslug_ne rfl
        rw [normalizeVenueId, if_neg hv'ne]
        cases hl : venueIdMap.lookup (String.mk (stripL (lowerL (String.mk (vid.data.map aposFix)).data))) with
        | some canon =>
          simp only [hl]
          have hmemv : canon ∈ venueIdMap.map Prod.snd := lookup_mem_snd _ _ _ hl
          constructor
          · have hall : ∀ s ∈ venueIdMap.map Prod.snd, s ≠ "" := by decide
            exact hall canon hmemv
          · exact Or.inl (List.mem_append_right _ hmemv)
        | none =>
          simp only [hl]
          constructor
          · intro he
            exact hslug_ne (congrArg String.data he)
          · exact Or.inr rfl

theorem venueid_total_on_nonspace_witness :
    normalizeVenueIdWithName "OBriens_Pub" "" ≠ "" ∧
    (normalizeVenueIdWithName "OBriens_Pub" "" ∈ venueCanonicalIds ∨
     normalizeVenueIdWithName "OBriens_Pub" "" = venueSlug "OBriens_Pub") :=
  venueid_total_on_nonspace "OBriens_Pub" "" ⟨'O', by decide, by decide⟩

/-- C5 (counterexample).  For this same-venue pair with dissimilar headliners,
matching time and age but an advance price only on one side, the source counts
the one-sided price as a third (non-matching) check and declares a duplicate
(2 matches of 3 checks), while the claim's "both records specify it" counting
admits only 2 checks, short of the required 3. -/
theorem majority_counts_onesided_price :
    venueSimilar cexP cexQ = true ∧ headlinerSimilar cexP cexQ = false ∧
    areDuplicates cexP cexQ = true ∧ claimedChecks cexP cexQ < 3 := by decide

/-- The sequential counters of `_are_duplicates` compute exactly the
(matches, checks) of the attribute list with the source's one-sided price
counting. -/
theorem majorityCounts_eq (a b : Concert) :
    majorityCounts a b = (codeMatches a b, codeChecks a b) := by
  unfold majorityCounts codeMatches codeChecks codeAttrChecks
  cases h1 : strTruthy a.time && strTruthy b.time <;>
    cases h6 : timesSimilar a.time b.time <;>
    cases h2 : a.price_advance.isSome || b.price_advance.isSome <;>
    cases h7 : decide (a.price_advance = b.price_advance) <;>
    cases h3 : a.price_door.isSome || b.price_door.isSome <;>
    cases h8 : decide (a.price_door = b.price_door) <;>
    cases h4 : strTruthy a.age_requirement && strTruthy b.age_requirement <;>
    cases h9 : decide (a.age_requirement = b.age_requirement) <;>
    cases h5 : decide (1 < a.bands.length) && decide (1 < b.bands.length) <;>
    cases h10 : supportOverlap a b <;>
    rfl

/-- C5 (amended).  In the majority-vote fallback, time, age requirement and
support-act overlap each contribute one check exactly when both records
specify them; each price field contributes one check when AT LEAST ONE record
specifies it (a one-sided price is a counted, failing check); the pair is a
duplicate exactly when at least 3 checks were possible and
matches ≥ checks/2 + 1. -/
theorem majority_fallback_characterization (a b : Concert)
    (hv : venueSimilar a b = true) (hh : headlinerSimilar a b = false) :
    areDuplicates a b = true ↔
      3 ≤ codeChecks a b ∧ codeChecks a b / 2 + 1 ≤ codeMatches a b := by
  rw [areDuplicates, hv, hh, majorityCounts_eq]
  simp

theorem majority_fallback_characterization_witness :
    areDuplicates cexP cexQ = true ↔
      3 ≤ codeChecks cexP cexQ ∧ codeChecks cexP cexQ / 2 + 1 ≤ codeMatches cexP cexQ :=
  majority_fallback_characterization cexP cexQ (by decide) (by decide)

/-! Helper lemmas for the never-mix-dates theorem (C4). -/

theorem digitChar_inj (a b : Nat) (ha : a < 10) (hb : b < 10)
    (h : Nat.digitChar a = Nat.digitChar b) : a = b := by
  interval_cases a <;> interval_cases b <;> revert h <;> decide

/-- The `%Y-%m-%d` day key is injective on the calendar dates `datetime`
admits. -/
theorem dateKey_inj (x y : Concert) (hx : DateValid x.date) (hy : DateValid y.date)
    (h : dateKey x = dateKey y) :
    x.date.year = y.date.year ∧ x.date.month = y.date.month ∧
    x.date.day = y.date.day := by
  obtain ⟨hx1, hx2, hx3⟩ := hx
  obtain ⟨hy1, hy2, hy3⟩ := hy
  have hd : (dateKey x).data = (dateKey y).data := congrArg String.data h
  simp only [dateKey, pad4, pad2, List.cons_append, List.nil_append,
    List.cons.injEq, and_true] at hd
  obtain ⟨e1, e2, e3, e4, -, e5, e6, -, e7, e8⟩ := hd
  have d10 : ∀ n : Nat, n % 10 < 10 := fun n => Nat.mod_lt _ (by omega)
  have g1 := digitChar_inj _ _ (d10 _) (d10 _) e1
  have g2 := digitChar_inj _ _ (d10 _) (d10 _) e2
  have g3 := digitChar_inj _ _ (d10 _) (d10 _) e3
  have g4 := digitChar_inj _ _ (d10 _) (d10 _) e4
  have g5 := digitChar_inj _ _ (d10 _) (d10 _) e5
  have g6 := digitChar_inj _ _ (d10 _) (d10 _) e6
  have g7 := digitChar_inj _ _ (d10 _) (d10 _) e7
  have g8 := digitChar_inj _ _ (d10 _) (d10 _) e8
  refine ⟨?_, ?_, ?_⟩ <;> omega

/-- Invariant of the date-grouping dictionary: every member of every group has
that group's key and comes from `l`. -/
def GroupsOK (l : List Concert) (gs : List (String × List Concert)) : Prop :=
  ∀ p ∈ gs, ∀ x ∈ p.2, dateKey x = p.1 ∧ x ∈ l

theorem addToGroup_ok {l : List Concert} {gs : List (String × List Concert)}
    {k : String} {c : Concert} (h : GroupsOK l gs) (hc : c ∈ l)
    (hk : dateKey c = k) : GroupsOK l (addToGroup k c gs) := by
  induction gs with
  | nil =>
    intro p hp x hx
    rw [addToGroup] at hp
    rcases List.mem_cons.mp hp with rfl | hp'
    · rcases List.mem_cons.mp hx with rfl | hx'
      · exact ⟨hk, hc⟩
      · cases hx'
    · cases hp'
  | cons q qs ih =>
    intro p hp x hx
    rw [addToGroup] at hp
    split at hp
    · next hq =>
      rcases List.mem_cons.mp hp with rfl | hp'
      · rcases List.mem_append.mp hx with hx' | hx'
        · have hqx := h q (List.mem_cons_self _ _) x hx'
          exact ⟨hqx.1, hqx.2⟩
        · rw [List.mem_singleton.mp hx']
          exact ⟨hk.trans hq.symm, hc⟩
      · exact h _ (List.mem_cons_of_mem _ hp') x hx
    · rcases List.mem_cons.mp hp with rfl | hp'
      · exact h _ (List.mem_cons_self _ _) x hx
      · exact ih (fun r hr => h r (List.mem_cons_of_mem _ hr)) _ hp' x hx

theorem foldl_groups_ok (l : List Concert) :
    ∀ (todo : List Concert) (gs : List (String × List Concert)),
      (∀ c ∈ todo, c ∈ l) → GroupsOK l gs →
      GroupsOK l (todo.foldl (fun gs c => addToGroup (dateKey c) c gs) gs) := by
  intro todo
  induction todo with
  | nil => intro gs _ h; exact h
  | cons c cs ih =>
    intro gs htodo h
    rw [List.foldl_cons]
    exact ih _ (fun x hx => htodo x (List.mem_cons_of_mem _ hx))
      (addToGroup_ok h (htodo c (List.mem_cons_self _ _)) rfl)

theorem groupByDate_ok (l : List Concert) : GroupsOK l (groupByDate l) :=
  foldl_groups_ok l l [] (fun _ h => h) (fun p hp => by cases hp)

theorem dayGroupsGo_subset :
    ∀ (fuel : Nat) (l : List Concert) (g : Concert × List Concert),
      g ∈ dayGroupsGo fuel l → ∀ x ∈ clusterMembers g, x ∈ l := by
  intro fuel
  induction fuel with
  | zero => intro l g hg; cases hg
  | succ n ih =>
    intro l g hg
    cases l with
    | nil => cases hg
    | cons a rest =>
      rw [dayGroupsGo] at hg
      rcases List.mem_cons.mp hg with rfl | hg'
      · intro x hx
        rcases List.mem_cons.mp hx with rfl | hx'
        · exact List.mem_cons_self _ _
        · exact List.mem_cons_of_mem _ ((List.filter_sublist _).subset hx')
      · intro x hx
        exact List.mem_cons_of_mem _ ((List.filter_sublist _).subset (ih _ _ hg' x hx))

/-- C4.  Records with different calendar dates are never placed in the same
cluster (hence never merged into one output record): the deduplicator
partitions by the `%Y-%m-%d` key before any comparison. -/
theorem clusters_never_mix_dates (l : List Concert)
    (hvalid : ∀ c ∈ l, DateValid c.date)
    (g : Concert × List Concert) (hg : g ∈ allClusters l)
    (a : Concert) (ha : a ∈ clusterMembers g)
    (b : Concert) (hb : b ∈ clusterMembers g) :
    a.date.year = b.date.year ∧ a.date.month = b.date.month ∧
    a.date.day = b.date.day := by
  rw [allClusters, List.mem_flatMap] at hg
  obtain ⟨p, hp, hgp⟩ := hg
  have hga : a ∈ p.2 := dayGroupsGo_subset _ _ _ hgp a ha
  have hgb : b ∈ p.2 := dayGroupsGo_subset _ _ _ hgp b hb
  have hka := groupByDate_ok l p hp a hga
  have hkb := groupByDate_ok l p hp b hgb
  exact dateKey_inj a b (hvalid a hka.2) (hvalid b hkb.2) (hka.1.trans hkb.1.symm)

theorem clusters_never_mix_dates_witness :
    cexM1.date.year = cexM2.date.year ∧ cexM1.date.month = cexM2.date.month ∧
    cexM1.date.day = cexM2.date.day :=
  clusters_never_mix_dates [cexM1, cexM2] (by decide) (cexM1, [cexM2]) (by decide)
    cexM1 (by decide) cexM2 (by decide)

/-! Helper lemmas about the richness/priority sort and the merge heap. -/

instance (cl : List Concert) : IsTotal Nat (idxLE cl) :=
  ⟨by intro i j; simp only [idxLE]; omega⟩

instance (cl : List Concert) : IsTrans Nat (idxLE cl) :=
  ⟨by
    intro i j k hij hjk
    simp only [idxLE] at *
    rcases hij with h1 | ⟨h1, h2 | ⟨h2, h3⟩⟩ <;>
      rcases hjk with g1 | ⟨g1, g2 | ⟨g2, g3⟩⟩ <;> omega⟩

instance (cl : List Concert) : IsRefl Nat (idxLE cl) :=
  ⟨fun i => Or.inr ⟨rfl, Or.inr ⟨rfl, Nat.le_refl i⟩⟩⟩

theorem sortIdx_perm (cl : List Concert) : (sortIdx cl).Perm (List.range cl.length) :=
  List.perm_insertionSort _ _

theorem sortIdx_sorted (cl : List Concert) : List.Sorted (idxLE cl) (sortIdx cl) :=
  List.sorted_insertionSort _ _

theorem sortIdx_nodup (cl : List Concert) : (sortIdx cl).Nodup :=
  (sortIdx_perm cl).symm.nodup (List.nodup_range _)

theorem mem_sortIdx (cl : List Concert) (j : Nat) :
    j ∈ sortIdx cl ↔ j < cl.length := by
  rw [(sortIdx_perm cl).mem_iff, List.mem_range]

theorem sortIdx_length (cl : List Concert) : (sortIdx cl).length = cl.length :=
  (sortIdx_perm cl).length_eq.trans (List.length_range _)

theorem sortIdx_head_lt (cl : List Concert) (h : cl ≠ []) :
    (sortIdx cl).headD 0 < cl.length := by
  rw [← mem_sortIdx]
  have hne : sortIdx cl ≠ [] := by
    intro he
    have := sortIdx_length cl
    rw [he] at this
    exact h (List.eq_nil_of_length_eq_zero this.symm)
  cases hord : sortIdx cl with
  | nil => exact absurd hord hne
  | cons b t => exact List.mem_cons_self _ _

/-- The head of the sort is least: the base is a highest-richness member, with
source-priority then original position as tie-breaks. -/
theorem sortIdx_head_least (cl : List Concert) (j : Nat) (hj : j < cl.length) :
    idxLE cl ((sortIdx cl).headD 0) j := by
  have hmem : j ∈ sortIdx cl := (mem_sortIdx cl j).mpr hj
  cases hord : sortIdx cl with
  | nil => rw [hord] at hmem; cases hmem
  | cons b t =>
    rw [hord] at hmem
    have hs := sortIdx_sorted cl
    rw [hord, List.sorted_cons] at hs
    rcases List.mem_cons.mp hmem with rfl | hm'
    · exact refl_of (idxLE cl) _
    · exact hs.1 j hm'

theorem getD_set_ne {l : List Concert} {i j : Nat} (x : Concert) (h : i ≠ j) :
    (l.set i x).getD j default = l.getD j default := by
  simp [List.getD_eq_getElem?_getD, List.getElem?_set_ne h]

theorem getD_set_self {l : List Concert} {i : Nat} (x : Concert) (h : i < l.length) :
    (l.set i x).getD i default = x := by
  simp [List.getD_eq_getElem?_getD, List.getElem?_set_self h]

theorem set_getD_self {l : List Concert} {i : Nat} (h : i < l.length) :
    l.set i (l.getD i default) = l := by
  apply List.ext_getElem?
  intro n
  by_cases hn : i = n
  · subst hn
    rw [List.getElem?_set_self h]
    simp [List.getD_eq_getElem?_getD, List.getElem?_eq_getElem h]
  · rw [List.getElem?_set_ne hn]

/-- The merge loop touches only the base cell of the heap. -/
theorem heapFold_frame (o : List String → List String) (b : Nat) (js : List Nat) :
    ∀ (h : List Concert) (j : Nat), j ≠ b →
      ((js.foldl (fun h jx =>
          h.set b (mergeStep o (h.getD b default) (h.getD jx default))) h).getD j default)
        = h.getD j default := by
  induction js with
  | nil => intro h j _; rfl
  | cons jx js ih =>
    intro h j hj
    rw [List.foldl_cons, ih _ j hj, getD_set_ne _ (fun he => hj he.symm)]

/-- Value form of the merge loop on the heap. -/
theorem heapFold_val (o : List String → List String) (cl : List Concert) (b : Nat)
    (hb : b < cl.length) (js : List Nat) (hjs : ∀ j ∈ js, j ≠ b) :
    ∀ acc : Concert,
      (js.foldl (fun h jx =>
          h.set b (mergeStep o (h.getD b default) (h.getD jx default))) (cl.set b acc))
        = cl.set b ((js.map fun j => cl.getD j default).foldl (mergeStep o) acc) := by
  induction js with
  | nil => intro acc; rfl
  | cons jx js ih =>
    intro acc
    have hjx : jx ≠ b := hjs jx (List.mem_cons_self _ _)
    rw [List.foldl_cons, getD_set_self _ hb, getD_set_ne _ (fun he => hjx he.symm),
      List.set_set, ih (fun j hj => hjs j (List.mem_cons_of_mem _ hj)), List.map_cons,
      List.foldl_cons]

theorem mergeStep_source (o : List String → List String) (x c : Concert) :
    (mergeStep o x c).source = x.source := rfl

theorem foldl_mergeStep_source (o : List String → List String) (l : List Concert)
    (x : Concert) : (l.foldl (mergeStep o) x).source = x.source := by
  induction l generalizing x with
  | nil => rfl
  | cons c cs ih => rw [List.foldl_cons, ih, mergeStep_source]

/-- The source list read at the end of the merge (over the post-loop heap, in
sorted order) equals the members' sources in sorted order. -/
def mergeSources (cl : List Concert) : List String :=
  (sortIdx cl).map fun j => (cl.getD j default).source

/-- Value-level form of `_merge_concerts` for clusters of length ≥ 2. -/
def mergeValue (o : List String → List String) (cl : List Concert) : Concert :=
  let folded := mergeFoldVal o cl
  let srcs := o (mergeSources cl)
  if 1 < srcs.length then
    { folded with source := "merged:" ++ plusJoin (sortStr srcs) }
  else folded

theorem sortIdx_facts (cl : List Concert) (h2 : 2 ≤ cl.length) :
    ∃ b t, sortIdx cl = b :: t ∧ b < cl.length ∧
      (∀ j ∈ t, j ≠ b) ∧ (∀ j ∈ t, j < cl.length) := by
  cases hord : sortIdx cl with
  | nil =>
    have hlen := sortIdx_length cl
    rw [hord] at hlen
    simp at hlen
    omega
  | cons b t =>
    refine ⟨b, t, rfl, ?_, ?_, ?_⟩
    · rw [← mem_sortIdx, hord]
      exact List.mem_cons_self _ _
    · have hnd := sortIdx_nodup cl
      rw [hord, List.nodup_cons] at hnd
      intro j hj he
      rw [he] at hj
      exact hnd.1 hj
    · intro j hj
      rw [← mem_sortIdx, hord]
      exact List.mem_cons_of_mem _ hj

theorem mergeHeap_snd_eq (o : List String → List String) (cl : List Concert)
    (h2 : 2 ≤ cl.length) : (mergeHeap o cl).2 = mergeValue o cl := by
  obtain ⟨b, t, hord, hb, hne, hlt⟩ := sortIdx_facts cl h2
  have hfold :
      (t.foldl (fun h jx =>
          h.set b (mergeStep o (h.getD b default) (h.getD jx default))) cl)
        = cl.set b (mergeFoldVal o cl) := by
    conv_lhs => rw [show cl = cl.set b (cl.getD b default) from (set_getD_self hb).symm]
    rw [heapFold_val o cl b hb t hne]
    congr 1
    rw [mergeFoldVal, hord]
    simp only [List.headD_cons, List.drop_succ_cons, List.drop_zero]
  have hbase : (mergeFoldVal o cl).source = (cl.getD b default).source := by
    rw [mergeFoldVal, hord]
    simp only [List.headD_cons, List.drop_succ_cons, List.drop_zero]
    rw [foldl_mergeStep_source]
  have hsources :
      ((b :: t).map fun j => ((cl.set b (mergeFoldVal o cl)).getD j default).source)
        = (b :: t).map fun j => (cl.getD j default).source := by
    apply List.map_congr_left
    intro j hj
    rcases List.mem_cons.mp hj with rfl | hj'
    · rw [getD_set_self _ hb, hbase]
    · rw [getD_set_ne _ fun he => (hne j hj') he.symm]
  simp only [mergeHeap, mergeValue, mergeSources, hord, List.headD_cons,
    List.drop_succ_cons, List.drop_zero, hfold, hsources]
  split
  · rw [List.set_set, getD_set_self _ hb, getD_set_self _ hb]
  · rw [getD_set_self _ hb]

theorem mergeHeap_fst_frame (o : List String → List String) (cl : List Concert)
    (j : Nat) (hj : j ≠ (sortIdx cl).headD 0) :
    (mergeHeap o cl).1.getD j default = cl.getD j default := by
  simp only [mergeHeap]
  split
  · rw [getD_set_ne _ fun he => hj he.symm, heapFold_frame _ _ _ _ _ hj]
  · rw [heapFold_frame _ _ _ _ _ hj]

/-! String-order lemmas: `lexLe` (Python string `<=`) is a linear order. -/

theorem char_toNat_inj {c d : Char} (h : c.toNat = d.toNat) : c = d :=
  Char.ext (UInt32.toNat.inj h)

theorem lexLe_total : ∀ a b : List Char, lexLe a b = true ∨ lexLe b a = true := by
  intro a
  induction a with
  | nil => intro b; exact Or.inl rfl
  | cons c cs ih =>
    intro b
    cases b with
    | nil => exact Or.inr rfl
    | cons d ds =>
      simp only [lexLe]
      rcases Nat.lt_trichotomy c.toNat d.toNat with h | h | h
      · rw [if_pos h]
        exact Or.inl rfl
      · rw [if_neg (by omega), if_pos h, if_neg (by omega), if_pos h.symm]
        exact ih ds
      · rw [if_neg (by omega), if_neg (by omega)]
        refine Or.inr ?_
        rw [if_pos h]

theorem lexLe_trans : ∀ a b c : List Char,
    lexLe a b = true → lexLe b c = true → lexLe a c = true := by
  intro a
  induction a with
  | nil => intro b c _ _; rfl
  | cons x xs ih =>
    intro b c hab hbc
    cases b with
    | nil => simp [lexLe] at hab
    | cons y ys =>
      cases c with
      | nil => simp [lexLe] at hbc
      | cons z zs =>
        simp only [lexLe] at hab hbc ⊢
        by_cases h1 : x.toNat < y.toNat
        · by_cases h2 : y.toNat < z.toNat
          · rw [if_pos (show x.toNat < z.toNat by omega)]
          · rw [if_neg h2] at hbc
            by_cases h4 : y.toNat = z.toNat
            · rw [if_pos (show x.toNat < z.toNat by omega)]
            · rw [if_neg h4] at hbc
              cases hbc
        · rw [if_neg h1] at hab
          by_cases h3 : x.toNat = y.toNat
          · rw [if_pos h3] at hab
            by_cases h2 : y.toNat < z.toNat
            · rw [if_pos (show x.toNat < z.toNat by omega)]
            · rw [if_neg h2] at hbc
              by_cases h4 : y.toNat = z.toNat
              · rw [if_pos h4] at hbc
                rw [if_neg (by omega), if_pos (by omega)]
                exact ih ys zs hab hbc
              · rw [if_neg h4] at hbc
                cases hbc
          · rw [if_neg h3] at hab
            cases hab

theorem lexLe_antisymm : ∀ a b : List Char,
    lexLe a b = true → lexLe b a = true → a = b := by
  intro a
  induction a with
  | nil =>
    intro b _ hba
    cases b with
    | nil => rfl
    | cons d ds => simp [lexLe] at hba
  | cons c cs ih =>
    intro b hab hba
    cases b with
    | nil => simp [lexLe] at hab
    | cons d ds =>
      simp only [lexLe] at hab hba
      by_cases h1 : c.toNat < d.toNat
      · rw [if_neg (by omega), if_neg (by omega)] at hba
        cases hba
      · by_cases h2 : c.toNat = d.toNat
        · rw [if_neg h1, if_pos h2] at hab
          rw [if_neg (by omega), if_pos h2.symm] at hba
          rw [char_toNat_inj h2, ih ds hab hba]
        · rw [if_neg h1, if_neg h2] at hab
          cases hab

instance : IsTotal String strLE :=
  ⟨fun a b => lexLe_total a.data b.data⟩

instance : IsTrans String strLE :=
  ⟨fun a b c => lexLe_trans a.data b.data c.data⟩

instance : IsAntisymm String strLE :=
  ⟨fun a b hab hba => by
    have hd := lexLe_antisymm a.data b.data hab hba
    cases a
    cases b
    exact congrArg String.mk hd⟩

theorem sortStr_sorted (l : List String) : List.Sorted strLE (sortStr l) :=
  List.sorted_insertionSort _ _

theorem sortStr_perm (l : List String) : (sortStr l).Perm l :=
  List.perm_insertionSort _ _

/-- Embedding: `sorted` erases any difference of input order. -/
theorem sortStr_eq_of_perm {l₁ l₂ : List String} (h : l₁.Perm l₂) :
    sortStr l₁ = sortStr l₂ :=
  List.eq_of_perm_of_sorted
    ((sortStr_perm l₁).trans (h.trans (sortStr_perm l₂).symm))
    (sortStr_sorted l₁) (sortStr_sorted l₂)

/-! `firstDedup` lemmas: contents of a Python set built from a list. -/

theorem mem_firstDedupGo (x : String) :
    ∀ (l : List String) (seen : List String),
      x ∈ firstDedupGo seen l ↔ x ∈ l ∧ ¬ seen.contains x := by
  intro l
  induction l with
  | nil => intro seen; simp [firstDedupGo]
  | cons y ys ih =>
    intro seen
    rw [firstDedupGo]
    split
    · next hy =>
      rw [ih]
      constructor
      · exact fun ⟨h1, h2⟩ => ⟨List.mem_cons_of_mem _ h1, h2⟩
      · rintro ⟨h1, h2⟩
        rcases List.mem_cons.mp h1 with rfl | h1'
        · exact absurd hy h2
        · exact ⟨h1', h2⟩
    · next hy =>
      constructor
      · intro hm
        rcases List.mem_cons.mp hm with rfl | hm'
        · exact ⟨List.mem_cons_self _ _, fun hc => hy hc⟩
        · have hih := (ih (y :: seen)).mp hm'
          refine ⟨List.mem_cons_of_mem _ hih.1, fun hc => hih.2 ?_⟩
          simp only [List.contains_cons, Bool.or_eq_true, beq_iff_eq]
          exact Or.inr hc
      · rintro ⟨h1, h2⟩
        rcases List.mem_cons.mp h1 with rfl | h1'
        · exact List.mem_cons_self _ _
        · by_cases hxy : x = y
          · rw [hxy]
            exact List.mem_cons_self _ _
          · refine List.mem_cons_of_mem _ ((ih (y :: seen)).mpr ⟨h1', fun hc => ?_⟩)
            simp only [List.contains_cons, Bool.or_eq_true, beq_iff_eq] at hc
            rcases hc with hc | hc
            · exact hxy hc
            · exact h2 hc

theorem nodup_firstDedupGo :
    ∀ (l : List String) (seen : List String), (firstDedupGo seen l).Nodup := by
  intro l
  induction l with
  | nil => intro seen; exact List.nodup_nil
  | cons y ys ih =>
    intro seen
    rw [firstDedupGo]
    split
    · exact ih seen
    · rw [List.nodup_cons]
      refine ⟨fun hm => ?_, ih (y :: seen)⟩
      have := (mem_firstDedupGo y ys (y :: seen)).mp hm
      exact this.2 (by simp [List.contains_cons])

theorem mem_firstDedup (x : String) (l : List String) :
    x ∈ firstDedup l ↔ x ∈ l := by
  rw [firstDedup, mem_firstDedupGo]
  simp [List.contains_nil]

theorem nodup_firstDedup (l : List String) : (firstDedup l).Nodup :=
  nodup_firstDedupGo l []

theorem firstDedup_perm_congr {l₁ l₂ : List String} (h : l₁.Perm l₂) :
    (firstDedup l₁).Perm (firstDedup l₂) := by
  rw [List.perm_ext_iff_of_nodup (nodup_firstDedup l₁) (nodup_firstDedup l₂)]
  intro a
  rw [mem_firstDedup, mem_firstDedup]
  exact ⟨fun hm => h.mem_iff.mp hm, fun hm => h.mem_iff.mpr hm⟩

/-- Mapping positions back through `getD` over `range` recovers the list. -/
theorem map_getD_range (l : List Concert) :
    ((List.range l.length).map fun i => l.getD i default) = l := by
  induction l with
  | nil => rfl
  | cons a as ih =>
    rw [List.length_cons, List.range_succ_eq_map, List.map_cons, List.map_map]
    have h2 : ((List.range as.length).map
        ((fun i => (a :: as).getD i default) ∘ Nat.succ)) = as := by
      conv_rhs => rw [← ih]
      apply List.map_congr_left
      intro i _
      rfl
    rw [h2]
    rfl

/-- The sources read by the merge (in sorted member order) are a permutation
of the cluster members' sources. -/
theorem mergeSources_perm (cl : List Concert) :
    (mergeSources cl).Perm (cl.map Concert.source) := by
  have h1 : mergeSources cl =
      ((sortIdx cl).map fun j => cl.getD j default).map Concert.source := by
    rw [mergeSources, List.map_map]
    rfl
  rw [h1]
  refine List.Perm.map Concert.source ?_
  have h2 := (sortIdx_perm cl).map fun j => cl.getD j default
  rw [map_getD_range] at h2
  exact h2

/-- C10.  For a multi-member cluster, the merge mutates only the base: the
returned record is the heap's base cell (the member that is least under the
stable richness/priority/position order, i.e. the highest-ranked one), and
every other member's post-state equals its pre-state. -/
theorem merge_base_frame (o : List String → List String) (c0 c1 : Concert)
    (rest : List Concert) :
    ((sortIdx (c0 :: c1 :: rest)).headD 0 < (c0 :: c1 :: rest).length) ∧
    (mergeHeap o (c0 :: c1 :: rest)).2 =
      (mergeHeap o (c0 :: c1 :: rest)).1.getD
        ((sortIdx (c0 :: c1 :: rest)).headD 0) default ∧
    (∀ j, j < (c0 :: c1 :: rest).length → j ≠ (sortIdx (c0 :: c1 :: rest)).headD 0 →
      (mergeHeap o (c0 :: c1 :: rest)).1.getD j default =
        (c0 :: c1 :: rest).getD j default) ∧
    (∀ j, j < (c0 :: c1 :: rest).length →
      idxLE (c0 :: c1 :: rest) ((sortIdx (c0 :: c1 :: rest)).headD 0) j) := by
  refine ⟨sortIdx_head_lt _ (by simp), rfl, ?_, ?_⟩
  · intro j _ hj
    exact mergeHeap_fst_frame o _ j hj
  · intro j hj
    exact sortIdx_head_least _ j hj

/-- C7.  When more than one distinct source contributed to a cluster, the
merged record's source is `merged:` followed by the distinct sources, sorted
and joined with `+`; when all members share one source, the base record's
source is untouched. -/
theorem merged_source_composite (o : List String → List String) (ho : SetModel o)
    (c0 : Concert) (rest : List Concert) :
    (1 < (firstDedup ((c0 :: rest).map Concert.source)).length →
      (mergeCluster o (c0, rest)).source =
        "merged:" ++ plusJoin (sortStr (firstDedup ((c0 :: rest).map Concert.source)))) ∧
    ((firstDedup ((c0 :: rest).map Concert.source)).length ≤ 1 →
      (mergeCluster o (c0, rest)).source =
        ((c0 :: rest).getD ((sortIdx (c0 :: rest)).headD 0) default).source) := by
  cases rest with
  | nil =>
    constructor
    · intro h
      simp [firstDedup, firstDedupGo] at h
    · intro _
      rfl
  | cons c1 rs =>
    have h2 : 2 ≤ (c0 :: c1 :: rs).length := by simp
    have hmc : mergeCluster o (c0, c1 :: rs) = mergeValue o (c0 :: c1 :: rs) := by
      show (some (mergeHeap o (c0 :: c1 :: rs)).2).getD c0 = _
      rw [Option.getD_some]
      exact mergeHeap_snd_eq o _ h2
    have hperm : (o (mergeSources (c0 :: c1 :: rs))).Perm
        (firstDedup ((c0 :: c1 :: rs).map Concert.source)) :=
      (ho _).trans (firstDedup_perm_congr (mergeSources_perm _))
    have hlen : (o (mergeSources (c0 :: c1 :: rs))).length =
        (firstDedup ((c0 :: c1 :: rs).map Concert.source)).length :=
      hperm.length_eq
    have hbase : (mergeFoldVal o (c0 :: c1 :: rs)).source =
        ((c0 :: c1 :: rs).getD ((sortIdx (c0 :: c1 :: rs)).headD 0) default).source := by
      rw [mergeFoldVal]
      exact foldl_mergeStep_source _ _ _
    constructor
    · intro hgt
      rw [hmc, mergeValue]
      rw [if_pos (by omega)]
      rw [sortStr_eq_of_perm hperm]
    · intro hle
      rw [hmc, mergeValue]
      rw [if_neg (by omega)]
      exact hbase

theorem merged_source_composite_witness :
    (mergeCluster firstDedup (cexM1, [cexM2])).source =
      "merged:" ++ plusJoin (sortStr (firstDedup ([cexM1, cexM2].map Concert.source))) :=
  (merged_source_composite firstDedup (fun xs => List.Perm.refl _) cexM1 [cexM2]).1
    (by decide)

/-- C9 (counterexample).  The pipeline output depends on the interpreter's
set-iteration order: two valid orders (`firstDedup` and its reverse) yield
different outputs on the same input — the merged record's `flags` come out as
`["a", "b"]` under one order and `["b", "a"]` under the other.  Across
interpreter processes (randomized string hashing) the order is not fixed, so
two runs need not be byte-identical. -/
theorem pipeline_set_order_dependent :
    SetModel firstDedup ∧ SetModel revDedup ∧
    pipeline firstDedup [cexM1, cexM2] ≠ pipeline revDedup [cexM1, cexM2] :=
  ⟨fun _ => List.Perm.refl _, fun _ => List.reverse_perm _, by decide⟩

/-! Congruence of the pipeline in the set-iteration order. -/

theorem eqUpTo_refl (c : Concert) : EqUpToSetOrder c c :=
  ⟨rfl, rfl, rfl, rfl, rfl, rfl, rfl, rfl, rfl, List.Perm.refl _, rfl, rfl,
   List.Perm.refl _⟩

theorem mergeStep_cong {o o' : List String → List String}
    (ho : SetModel o) (ho' : SetModel o') {x y : Concert} (c : Concert)
    (h : EqUpToSetOrder x y) : EqUpToSetOrder (mergeStep o x c) (mergeStep o' y c) := by
  obtain ⟨h1, h2, h3, h4, h5, h6, h7, h8, h9, h10, h11, h12, h13⟩ := h
  refine ⟨h1, h2, h3, h4, ?_, ?_, ?_, ?_, ?_, ?_, h11, h12, ?_⟩
  · show mergeBands x.bands c.bands = mergeBands y.bands c.bands
    rw [h5]
  · show (if x.age_requirement = "a/a" && c.age_requirement ≠ "a/a" then
        c.age_requirement else x.age_requirement) = _
    rw [h6]
    rfl
  · show (if !optIntTruthy x.price_advance && optIntTruthy c.price_advance then
        c.price_advance else x.price_advance) = _
    rw [h7]
    rfl
  · show (if !optIntTruthy x.price_door && optIntTruthy c.price_door then
        c.price_door else x.price_door) = _
    rw [h8]
    rfl
  · show (if x.time = "8pm" && c.time ≠ "8pm" then c.time else x.time) = _
    rw [h9]
    rfl
  · show (o (x.flags ++ c.flags)).Perm (o' (y.flags ++ c.flags))
    exact (ho _).trans
      ((firstDedup_perm_congr (h10.append_right c.flags)).trans (ho' _).symm)
  · show (o (x.genre_tags ++ c.genre_tags)).Perm (o' (y.genre_tags ++ c.genre_tags))
    exact (ho _).trans
      ((firstDedup_perm_congr (h13.append_right c.genre_tags)).trans (ho' _).symm)

theorem foldl_mergeStep_cong {o o' : List String → List String}
    (ho : SetModel o) (ho' : SetModel o') (cs : List Concert) :
    ∀ {x y : Concert}, EqUpToSetOrder x y →
      EqUpToSetOrder (cs.foldl (mergeStep o) x) (cs.foldl (mergeStep o') y) := by
  induction cs with
  | nil => intro x y h; exact h
  | cons c cs ih =>
    intro x y h
    rw [List.foldl_cons, List.foldl_cons]
    exact ih (mergeStep_cong ho ho' c h)

theorem mergeValue_cong {o o' : List String → List String}
    (ho : SetModel o) (ho' : SetModel o') (cl : List Concert) :
    EqUpToSetOrder (mergeValue o cl) (mergeValue o' cl) := by
  have hfold : EqUpToSetOrder (mergeFoldVal o cl) (mergeFoldVal o' cl) := by
    rw [mergeFoldVal, mergeFoldVal]
    exact foldl_mergeStep_cong ho ho' _ (eqUpTo_refl _)
  have hsperm : (o (mergeSources cl)).Perm (o' (mergeSources cl)) :=
    (ho _).trans (ho' _).symm
  have hslen := hsperm.length_eq
  rw [mergeValue, mergeValue]
  by_cases hgt : 1 < (o (mergeSources cl)).length
  · rw [if_pos hgt, if_pos (by omega)]
    obtain ⟨g1, g2, g3, g4, g5, g6, g7, g8, g9, g10, g11, g12, g13⟩ := hfold
    exact ⟨g1, g2, g3, g4, g5, g6, g7, g8, g9, g10,
      by show "merged:" ++ plusJoin (sortStr (o (mergeSources cl))) = _
         rw [sortStr_eq_of_perm hsperm],
      g12, g13⟩
  · rw [if_neg hgt, if_neg (by omega)]
    exact hfold

theorem mergeCluster_eq_mergeValue (o : List String → List String)
    (c0 c1 : Concert) (rs : List Concert) :
    mergeCluster o (c0, c1 :: rs) = mergeValue o (c0 :: c1 :: rs) := by
  show (some (mergeHeap o (c0 :: c1 :: rs)).2).getD c0 = _
  rw [Option.getD_some]
  exact mergeHeap_snd_eq o _ (by simp)

theorem mergeCluster_cong {o o' : List String → List String}
    (ho : SetModel o) (ho' : SetModel o') (g : Concert × List Concert) :
    EqUpToSetOrder (mergeCluster o g) (mergeCluster o' g) := by
  obtain ⟨c0, rest⟩ := g
  cases rest with
  | nil => exact eqUpTo_refl c0
  | cons c1 rs =>
    rw [mergeCluster_eq_mergeValue, mergeCluster_eq_mergeValue]
    exact mergeValue_cong ho ho' _

theorem normalizeConcert_cong {o o' : List String → List String}
    (ho : SetModel o) (ho' : SetModel o') (c : Concert) :
    normalizeConcert o c = normalizeConcert o' c := by
  rw [normalizeConcert, normalizeConcert,
    sortStr_eq_of_perm ((ho c.flags).trans (ho' c.flags).symm)]

theorem normalizeConcerts_cong {o o' : List String → List String}
    (ho : SetModel o) (ho' : SetModel o') (l : List Concert) :
    normalizeConcerts o l = normalizeConcerts o' l := by
  rw [normalizeConcerts, normalizeConcerts]
  induction l with
  | nil => rfl
  | cons c cs ih =>
    rw [List.filterMap_cons, List.filterMap_cons, normalizeConcert_cong ho ho' c, ih]

theorem forall2_map_same {α β : Type} (R : β → β → Prop) (f g : α → β)
    (l : List α) (h : ∀ x ∈ l, R (f x) (g x)) :
    List.Forall₂ R (l.map f) (l.map g) := by
  induction l with
  | nil => exact List.Forall₂.nil
  | cons x xs ih =>
    exact List.Forall₂.cons (h x (List.mem_cons_self _ _))
      (ih fun z hz => h z (List.mem_cons_of_mem _ hz))

theorem forall2_append {β : Type} (R : β → β → Prop) {a b c d : List β}
    (h1 : List.Forall₂ R a b) (h2 : List.Forall₂ R c d) :
    List.Forall₂ R (a ++ c) (b ++ d) := by
  induction h1 with
  | nil => exact h2
  | cons hx _ ih => exact List.Forall₂.cons hx ih

theorem forall2_flatMap {α β : Type} (R : β → β → Prop) (f g : α → List β)
    (l : List α) (h : ∀ x ∈ l, List.Forall₂ R (f x) (g x)) :
    List.Forall₂ R (l.flatMap f) (l.flatMap g) := by
  induction l with
  | nil => exact List.Forall₂.nil
  | cons x xs ih =>
    rw [List.flatMap_cons, List.flatMap_cons]
    exact forall2_append R (h x (List.mem_cons_self _ _))
      (ih fun z hz => h z (List.mem_cons_of_mem _ hz))

/-- C9 (amended).  For a fixed set-iteration order the composed pipeline is a
pure function (two runs on the same input agree definitionally); across
different valid set-iteration orders the outputs agree record-for-record on
every field except the ORDER of the set-derived `flags` and `genre_tags`
lists, which agree as multisets. -/
theorem pipeline_deterministic_up_to_set_order (o o' : List String → List String)
    (ho : SetModel o) (ho' : SetModel o') (l : List Concert) :
    List.Forall₂ EqUpToSetOrder (pipeline o l) (pipeline o' l) := by
  rw [pipeline, pipeline, normalizeConcerts_cong ho ho']
  rw [deduplicateConcerts, deduplicateConcerts]
  apply forall2_flatMap
  intro g _
  rw [dedupDay, dedupDay]
  apply forall2_map_same
  intro cluster _
  exact mergeCluster_cong ho ho' cluster

theorem pipeline_deterministic_up_to_set_order_witness :
    List.Forall₂ EqUpToSetOrder (pipeline firstDedup [cexM1, cexM2])
      (pipeline revDedup [cexM1, cexM2]) :=
  pipeline_deterministic_up_to_set_order firstDedup revDedup
    (fun _ => List.Perm.refl _) (fun _ => List.reverse_perm _) [cexM1, cexM2]

end Sandbag
